import Mathlib

/-!
Verification of the beanquery column-rendering core against its
natural-language specification.

The repository sources at hand are `beanquery/query_render_test.py`,
`beanquery/render/text.py` and `beanquery/sources/csv.py`.  The renderer
family itself (`beanquery/query_render.py`) is exercised by the tests but its
source is not in the tree, so the renderer definitions below are modelled
from the specification, constrained by the behaviour that the in-tree unit
tests pin down.  Machine integers do not occur: Python integers and decimals
are arbitrary precision and are embedded as `Int`/`Nat` with an explicit
scale.
-/

set_option maxRecDepth 4000

namespace Beanquery

/-! ### String utilities

Python string helpers used by the renderers: space padding (`str.ljust`,
`str.rjust`), zero padding, truncation.  Lean `String` is a structure holding
a `List Char`, which matches Python's sequence-of-characters view. -/

/-- A run of `n` spaces (`' ' * n` in Python). -/
def spacesStr (n : Nat) : String := ⟨List.replicate n ' '⟩

/-- Python `s.ljust(w)`: left-justify, padding with spaces on the right,
never truncating. -/
def ljust (s : String) (w : Nat) : String := s ++ spacesStr (w - s.length)

/-- Python `s.rjust(w)`: right-justify, padding with spaces on the left,
never truncating. -/
def rjust (s : String) (w : Nat) : String := spacesStr (w - s.length) ++ s

/-- Left-pad a digit string with `'0'` up to width `w` (Python `%0*d`). -/
def padZeros (s : String) (w : Nat) : String :=
  ⟨List.replicate (w - s.length) '0' ++ s.data⟩

/-- Python slicing `s[:n]`. -/
def strTake (s : String) (n : Nat) : String := ⟨s.data.take n⟩

theorem length_mk (l : List Char) : (String.mk l).length = l.length := rfl

theorem data_append (s t : String) : (s ++ t).data = s.data ++ t.data := by
  cases s; cases t; rfl

theorem length_append (s t : String) : (s ++ t).length = s.length + t.length := by
  cases s with
  | mk a =>
    cases t with
    | mk b =>
      show (a ++ b).length = a.length + b.length
      exact List.length_append a b

theorem append_empty (s : String) : s ++ "" = s := by
  cases s with
  | mk l => show String.mk (l ++ []) = String.mk l; rw [List.append_nil]

theorem length_spacesStr (n : Nat) : (spacesStr n).length = n := by
  show (List.replicate n ' ').length = n
  exact List.length_replicate n ' '

theorem spacesStr_zero : spacesStr 0 = "" := rfl

theorem length_ljust (s : String) (w : Nat) : (ljust s w).length = max w s.length := by
  rw [ljust, length_append, length_spacesStr]; omega

theorem length_rjust (s : String) (w : Nat) : (rjust s w).length = max w s.length := by
  rw [rjust, length_append, length_spacesStr]; omega

theorem length_padZeros (s : String) (w : Nat) :
    (padZeros s w).length = max w s.length := by
  cases s with
  | mk l =>
    show (List.replicate (w - l.length) '0' ++ l).length = max w l.length
    rw [List.length_append, List.length_replicate]
    omega

theorem length_strTake (s : String) (n : Nat) :
    (strTake s n).length = min n s.length := by
  show (s.data.take n).length = min n s.data.length
  exact List.length_take n s.data

theorem strTake_of_le (s : String) (n : Nat) (h : s.length ≤ n) :
    strTake s n = s := by
  cases s with
  | mk l =>
    show String.mk (l.take n) = String.mk l
    rw [List.take_of_length_le h]

theorem rjust_of_lt (s : String) (w : Nat) (h : w < s.length) :
    rjust s w = s := by
  rw [rjust]
  have : w - s.length = 0 := by omega
  rw [this, spacesStr_zero]
  cases s with
  | mk l => show String.mk ([] ++ l) = String.mk l; rw [List.nil_append]

/-! ### Decimal digit strings

Python renders integers via their base-10 digit string.  `lsbDigits x w`
gives the `w` low-order digits of `x`, least significant first; `numDigits`
is the number of digits of `x` (with `numDigits 0 = 1`, matching
`len(str(0))`); `natRepr`/`intRepr` are the model of Python `str` on
integers. -/

/-- The character for digit `d` (`d < 10`). -/
def digitChar (d : Nat) : Char := Char.ofNat (48 + d)

/-- The `w` low-order base-10 digits of `x`, least significant first. -/
def lsbDigits : Nat → Nat → List Char
  | _, 0 => []
  | x, w + 1 => digitChar (x % 10) :: lsbDigits (x / 10) w

/-- Fueled digit count; fuel `n` suffices for argument `n`. -/
def numDigitsAux : Nat → Nat → Nat
  | 0, _ => 1
  | f + 1, n => if n < 10 then 1 else numDigitsAux f (n / 10) + 1

/-- Number of base-10 digits of `n` (`numDigits 0 = 1`). -/
def numDigits (n : Nat) : Nat := numDigitsAux n n

theorem numDigitsAux_zero (f : Nat) : numDigitsAux f 0 = 1 := by
  cases f <;> simp [numDigitsAux]

theorem numDigitsAux_congr : ∀ f g n : Nat, n ≤ f → n ≤ g →
    numDigitsAux f n = numDigitsAux g n := by
  intro f
  induction f with
  | zero =>
    intro g n hf _
    have : n = 0 := by omega
    subst this
    rw [numDigitsAux_zero, numDigitsAux_zero]
  | succ f ih =>
    intro g n hf hg
    cases g with
    | zero =>
      have : n = 0 := by omega
      subst this
      rw [numDigitsAux_zero, numDigitsAux_zero]
    | succ g =>
      by_cases h : n < 10
      · simp [numDigitsAux, h]
      · have hn : 0 < n := by omega
        have hlt : n / 10 < n := Nat.div_lt_self hn (by omega)
        simp only [numDigitsAux, h, if_false]
        rw [ih g (n / 10) (by omega) (by omega)]

theorem numDigits_rec (n : Nat) :
    numDigits n = if n < 10 then 1 else numDigits (n / 10) + 1 := by
  by_cases h : n < 10
  · cases n with
    | zero => simp [numDigits, numDigitsAux, h]
    | succ m => simp [numDigits, numDigitsAux, h]
  · have hn : 0 < n := by omega
    have hlt : n / 10 < n := Nat.div_lt_self hn (by omega)
    cases n with
    | zero => omega
    | succ m =>
      simp only [numDigits, numDigitsAux, h, if_false]
      rw [numDigitsAux_congr m ((m + 1) / 10) ((m + 1) / 10) (by omega) (by omega)]

theorem numDigits_pos (n : Nat) : 1 ≤ numDigits n := by
  rw [numDigits_rec]
  split <;> omega

theorem numDigits_le_iff (n : Nat) : ∀ k : Nat, 1 ≤ k →
    (numDigits n ≤ k ↔ n < 10 ^ k) := by
  induction n using Nat.strong_induction_on with
  | _ n ih =>
    intro k hk
    rw [numDigits_rec]
    by_cases h : n < 10
    · have h10 : (10 : Nat) ≤ 10 ^ k := by
        calc (10 : Nat) = 10 ^ 1 := (pow_one 10).symm
        _ ≤ 10 ^ k := Nat.pow_le_pow_right (by omega) hk
      simp only [h, if_true]
      constructor
      · intro _; omega
      · intro _; omega
    · simp only [h, if_false]
      cases k with
      | zero => omega
      | succ k =>
        cases k with
        | zero =>
          constructor
          · intro hle
            have := numDigits_pos (n / 10)
            omega
          · intro hlt
            exfalso; omega
        | succ k =>
          have hn : 0 < n := by omega
          have hlt : n / 10 < n := Nat.div_lt_self hn (by omega)
          have hiff := ih (n / 10) hlt (k + 1) (by omega)
          constructor
          · intro hle
            have h1 : numDigits (n / 10) ≤ k + 1 := by omega
            have h2 : n / 10 < 10 ^ (k + 1) := hiff.mp h1
            have h3 : n < 10 ^ (k + 1) * 10 :=
              (Nat.div_lt_iff_lt_mul (by omega)).mp h2
            calc n < 10 ^ (k + 1) * 10 := h3
            _ = 10 ^ (k + 1 + 1) := (pow_succ 10 (k + 1)).symm
          · intro hlt2
            have h2 : n < 10 ^ (k + 1) * 10 := by
              calc n < 10 ^ (k + 1 + 1) := hlt2
              _ = 10 ^ (k + 1) * 10 := pow_succ 10 (k + 1)
            have h3 : n / 10 < 10 ^ (k + 1) :=
              (Nat.div_lt_iff_lt_mul (by omega)).mpr h2
            have h4 : numDigits (n / 10) ≤ k + 1 := hiff.mpr h3
            omega

theorem lt_pow_numDigits (n : Nat) : n < 10 ^ numDigits n :=
  (numDigits_le_iff n (numDigits n) (numDigits_pos n)).mp (le_refl _)

theorem numDigits_mono {m n : Nat} (h : m ≤ n) : numDigits m ≤ numDigits n :=
  (numDigits_le_iff m (numDigits n) (numDigits_pos n)).mpr
    (lt_of_le_of_lt h (lt_pow_numDigits n))

theorem numDigits_max (a b : Nat) :
    numDigits (max a b) = max (numDigits a) (numDigits b) := by
  rcases le_total a b with h | h
  · rw [Nat.max_eq_right h, Nat.max_eq_right (numDigits_mono h)]
  · rw [Nat.max_eq_left h, Nat.max_eq_left (numDigits_mono h)]

theorem length_lsbDigits : ∀ (w x : Nat), (lsbDigits x w).length = w := by
  intro w
  induction w with
  | zero => intro x; rfl
  | succ w ih => intro x; simp [lsbDigits, ih]

theorem lsbDigits_add (a b : Nat) : ∀ x : Nat,
    lsbDigits x (a + b) = lsbDigits x a ++ lsbDigits (x / 10 ^ a) b := by
  induction a with
  | zero =>
    intro x
    simp [lsbDigits, Nat.zero_add, pow_zero, Nat.div_one]
  | succ a ih =>
    intro x
    have h1 : a + 1 + b = (a + b) + 1 := by omega
    rw [h1]
    show digitChar (x % 10) :: lsbDigits (x / 10) (a + b) = _
    rw [ih (x / 10)]
    have h2 : x / 10 / 10 ^ a = x / 10 ^ (a + 1) := by
      rw [Nat.div_div_eq_div_mul, pow_succ, Nat.mul_comm (10 ^ a) 10]
    rw [h2]
    rfl

theorem lsbDigits_zero_val : ∀ w : Nat, lsbDigits 0 w = List.replicate w '0' := by
  intro w
  induction w with
  | zero => rfl
  | succ w ih =>
    show digitChar 0 :: lsbDigits 0 w = _
    rw [ih]
    rfl

theorem lsbDigits_drop (x a w : Nat) (h : a ≤ w) :
    (lsbDigits x w).drop a = lsbDigits (x / 10 ^ a) (w - a) := by
  obtain ⟨c, rfl⟩ : ∃ c, w = a + c := ⟨w - a, by omega⟩
  rw [lsbDigits_add]
  have h2 : (lsbDigits x a ++ lsbDigits (x / 10 ^ a) c).drop a =
      lsbDigits (x / 10 ^ a) c := by
    have h3 := List.drop_left (lsbDigits x a) (lsbDigits (x / 10 ^ a) c)
    rwa [length_lsbDigits] at h3
  rw [h2]
  congr 1
  omega

/-- Python `str(n)` for a natural number. -/
def natRepr (x : Nat) : String := ⟨(lsbDigits x (numDigits x)).reverse⟩

/-- Python `str(i)` for an integer: a `-` sign followed by the digits. -/
def intRepr (i : Int) : String :=
  if i < 0 then "-" ++ natRepr i.natAbs else natRepr i.natAbs

theorem length_natRepr (x : Nat) : (natRepr x).length = numDigits x := by
  show (lsbDigits x (numDigits x)).reverse.length = _
  rw [List.length_reverse, length_lsbDigits]

theorem length_intRepr (i : Int) :
    (intRepr i).length = (if i < 0 then 1 else 0) + numDigits i.natAbs := by
  rw [intRepr]
  split
  · rw [length_append, length_natRepr]; rfl
  · rw [length_natRepr]; omega

theorem padZeros_natRepr (x w : Nat) (h : numDigits x ≤ w) :
    padZeros (natRepr x) w = ⟨(lsbDigits x w).reverse⟩ := by
  have hw : w = numDigits x + (w - numDigits x) := by omega
  show String.mk (List.replicate (w - (natRepr x).length) '0' ++ (natRepr x).data) = _
  rw [length_natRepr]
  show String.mk (List.replicate (w - numDigits x) '0' ++
    (lsbDigits x (numDigits x)).reverse) = _
  congr 1
  conv_rhs => rw [hw]
  rw [lsbDigits_add, Nat.div_eq_of_lt (lt_pow_numDigits x), lsbDigits_zero_val,
    List.reverse_append, List.reverse_replicate]

theorem reverse_take_eq (l : List Char) (k : Nat) (hk : k ≤ l.length) :
    l.reverse.take k = (l.drop (l.length - k)).reverse := by
  have hlen : (l.drop (l.length - k)).reverse.length = k := by
    rw [List.length_reverse, List.length_drop]; omega
  have hsplit : l.reverse =
      (l.drop (l.length - k)).reverse ++ (l.take (l.length - k)).reverse := by
    rw [← List.reverse_append, List.take_append_drop]
  rw [hsplit]
  have h3 := List.take_left ((l.drop (l.length - k)).reverse)
    ((l.take (l.length - k)).reverse)
  rwa [hlen] at h3

theorem strTake_padZeros (x s k : Nat) (h1 : 1 ≤ k) (hk : k ≤ s)
    (hx : x < 10 ^ s) :
    strTake (padZeros (natRepr x) s) k = padZeros (natRepr (x / 10 ^ (s - k))) k := by
  have hs : 1 ≤ s := le_trans h1 hk
  have hnd : numDigits x ≤ s := (numDigits_le_iff x s hs).mpr hx
  have hq : x / 10 ^ (s - k) < 10 ^ k := by
    apply (Nat.div_lt_iff_lt_mul (Nat.pos_pow_of_pos _ (by omega))).mpr
    calc x < 10 ^ s := hx
    _ = 10 ^ (k + (s - k)) := by congr 1; omega
    _ = 10 ^ k * 10 ^ (s - k) := by rw [pow_add]
  have hnd2 : numDigits (x / 10 ^ (s - k)) ≤ k := (numDigits_le_iff _ k h1).mpr hq
  rw [padZeros_natRepr x s hnd, padZeros_natRepr _ k hnd2]
  show String.mk ((lsbDigits x s).reverse.take k) = _
  congr 1
  rw [reverse_take_eq _ k (by rw [length_lsbDigits]; exact hk),
    length_lsbDigits, lsbDigits_drop x (s - k) s (by omega)]
  congr 2
  omega

/-! ### Generic fold invariants

The renderer contract is a two-pass observe-then-format protocol: a state is
folded over the observed column values with `update`, then `format` is pure.
These two lemmas extract invariants of such folds: preservation along the
fold, and establishment by a member of the observed list. -/

theorem foldlPres {σ α : Type} (upd : σ → α → σ) (P : σ → Prop)
    (hp : ∀ s v, P s → P (upd s v)) (V : List α) (s : σ) (hs : P s) :
    P (V.foldl upd s) := by
  induction V generalizing s with
  | nil => exact hs
  | cons w rest ih => exact ih (upd s w) (hp s w hs)

theorem foldlMem {σ α : Type} (upd : σ → α → σ) (P : σ → Prop)
    (hp : ∀ s v, P s → P (upd s v)) (v : α) (hest : ∀ s, P (upd s v))
    (V : List α) (s : σ) (hv : v ∈ V) : P (V.foldl upd s) := by
  induction V generalizing s with
  | nil => cases hv
  | cons w rest ih =>
    rcases List.mem_cons.mp hv with h | h
    · subst h
      exact foldlPres upd P hp rest (upd s v) (hest s)
    · exact ih (upd s w) h

/-! ### The max-length renderer core (Object, Bool, String, Set, Date)

Modelled from the spec: sections 4.1-4.3 of the specification describe the
Object, Bool, String, Set and Date renderers of the missing
`beanquery/query_render.py`.  Each observes values, tracks the maximum
length of their display strings, and formats by left-justifying the display
string to that width (`ObjectRenderer.update` / `.prepare` / `.width` /
`.format` and its siblings).  The family is embedded as one parametric core
`mlUpdate`/`mlRun`/`mlWidth`/`mlFormat` over a display function, plus one
display function per renderer. -/

structure MaxLenState where
  maxlen : Nat
deriving DecidableEq

/-- Modelled from the spec: `update` of the max-length renderers of the
missing `query_render.py` — observe one value, widening the column to its
display string. -/
def mlUpdate {α : Type} (disp : α → String) (s : MaxLenState) (v : α) :
    MaxLenState :=
  ⟨max s.maxlen (disp v).length⟩

/-- Modelled from the spec: the whole observation pass (`update` for every
value in row order, then `prepare`, which computes nothing further for these
renderers). -/
def mlRun {α : Type} (disp : α → String) (V : List α) : MaxLenState :=
  V.foldl (mlUpdate disp) ⟨0⟩

/-- Modelled from the spec: `width()` — the maximum display length observed. -/
def mlWidth (s : MaxLenState) : Nat := s.maxlen

/-- Modelled from the spec: `format(value)` — the display string
left-justified (space padded) to the column width. -/
def mlFormat {α : Type} (disp : α → String) (s : MaxLenState) (v : α) : String :=
  ljust (disp v) s.maxlen

/-- Modelled from the spec: BoolRenderer display literals, the fixed
vocabulary TRUE / FALSE (spec 4.2). -/
def boolDisp (b : Bool) : String := if b then "TRUE" else "FALSE"

/-- Modelled from the spec: StringRenderer display — null counts as the
empty string (spec 4.3). -/
def strDisp (v : Option String) : String := v.getD ""

/-- Python `sep.join(elems)`. -/
def joinSep (sep : String) : List String → String
  | [] => ""
  | [x] => x
  | x :: y :: rest => x ++ sep ++ joinSep sep (y :: rest)

/-- Modelled from the spec: SetRenderer display — members joined by the
context listsep in the container's stable iteration order (spec 4.3); the
set is embedded as the list of its members in that order. -/
def setDisp (sep : String) (v : List String) : String := joinSep sep v

/-- A calendar date as Python `datetime.date` bounds it (year at most 9999),
with the loose bounds that make ISO-8601 rendering ten characters wide. -/
structure DateV where
  year : Nat
  month : Nat
  day : Nat
  year_lt : year < 10000
  month_lt : month < 100
  day_lt : day < 100

/-- Modelled from the spec: DateRenderer display — the ISO-8601
`YYYY-MM-DD` string form (spec 4.1). -/
def dateDisp (d : DateV) : String :=
  padZeros (natRepr d.year) 4 ++ "-" ++ padZeros (natRepr d.month) 2 ++ "-" ++
    padZeros (natRepr d.day) 2

theorem length_dateDisp (d : DateV) : (dateDisp d).length = 10 := by
  rw [dateDisp, length_append, length_append, length_append, length_append,
    length_padZeros, length_padZeros, length_padZeros,
    length_natRepr, length_natRepr, length_natRepr]
  have h1 : numDigits d.year ≤ 4 := (numDigits_le_iff d.year 4 (by omega)).mpr
    (by have := d.year_lt; norm_num; omega)
  have h2 : numDigits d.month ≤ 2 := (numDigits_le_iff d.month 2 (by omega)).mpr
    (by have := d.month_lt; norm_num; omega)
  have h3 : numDigits d.day ≤ 2 := (numDigits_le_iff d.day 2 (by omega)).mpr
    (by have := d.day_lt; norm_num; omega)
  have hd : ("-" : String).length = 1 := rfl
  omega

/-- Core width lemma for the max-length family: formatting a value that was
observed yields a string of exactly the column width. -/
theorem mlFormat_length {α : Type} (disp : α → String) (V : List α) (v : α)
    (hv : v ∈ V) :
    (mlFormat disp (mlRun disp V) v).length = mlWidth (mlRun disp V) := by
  have hle : (disp v).length ≤ (mlRun disp V).maxlen := by
    refine foldlMem (mlUpdate disp) (fun s => (disp v).length ≤ s.maxlen)
      ?_ v ?_ V ⟨0⟩ hv
    · intro s w h
      simp only [mlUpdate]
      omega
    · intro s
      simp only [mlUpdate]
      omega
  rw [mlFormat, length_ljust, mlWidth]
  omega

/-! ### IntegerRenderer

Modelled from the spec: IntegerRenderer of the missing `query_render.py`
(spec 4.4): observe the digit count of every value's absolute value and
whether any negative value occurred; width is the maximal digit count plus
one for the sign if a negative was seen, minimum 1; `format` right-justifies
`str(value)` to that width and never truncates. -/

structure IntState where
  maxd : Nat
  neg : Bool
deriving DecidableEq

/-- Modelled from the spec: `IntegerRenderer.update`. -/
def intUpdate (s : IntState) (v : Int) : IntState :=
  ⟨max s.maxd (numDigits v.natAbs), s.neg || decide (v < 0)⟩

/-- Modelled from the spec: the observation pass of IntegerRenderer. -/
def intRun (V : List Int) : IntState := V.foldl intUpdate ⟨0, false⟩

/-- Modelled from the spec: `IntegerRenderer.width()`. -/
def intWidth (s : IntState) : Nat :=
  max 1 (s.maxd + (if s.neg then 1 else 0))

/-- Modelled from the spec: `IntegerRenderer.format(value)` — right-justify,
the sign sitting inside the field, no truncation on overflow. -/
def intFormat (s : IntState) (v : Int) : String := rjust (intRepr v) (intWidth s)

theorem intWidth_le_update (s : IntState) (w : Int) :
    intWidth s ≤ intWidth (intUpdate s w) := by
  obtain ⟨m, b⟩ := s
  simp only [intWidth, intUpdate]
  cases b with
  | false =>
    by_cases hw : w < 0 <;> simp [hw] <;> omega
  | true =>
    simp

theorem intRepr_le_update (s : IntState) (v : Int) :
    (intRepr v).length ≤ intWidth (intUpdate s v) := by
  obtain ⟨m, b⟩ := s
  rw [length_intRepr]
  simp only [intWidth, intUpdate]
  by_cases h : v < 0
  · simp [h]
    omega
  · simp [h]
    cases b with
    | false =>
      simp
    | true =>
      simp
      omega

theorem intFormat_length_mem (V : List Int) (v : Int) (hv : v ∈ V) :
    (intFormat (intRun V) v).length = intWidth (intRun V) := by
  have hle : (intRepr v).length ≤ intWidth (intRun V) := by
    refine foldlMem intUpdate (fun s => (intRepr v).length ≤ intWidth s)
      ?_ v ?_ V ⟨0, false⟩ hv
    · intro s w h
      exact le_trans h (intWidth_le_update s w)
    · intro s
      exact intRepr_le_update s v
  rw [intFormat, length_rjust]
  omega

/-- The largest absolute value in the column. -/
def maxAbs (V : List Int) : Nat := V.foldl (fun a v => max a v.natAbs) 0

theorem intRun_maxd_eq (V : List Int) : ∀ a : Nat, ∀ b : Bool,
    (V.foldl intUpdate ⟨numDigits a, b⟩).maxd =
      numDigits (V.foldl (fun m v => max m v.natAbs) a) := by
  induction V with
  | nil => intro a b; rfl
  | cons v rest ih =>
    intro a b
    show (rest.foldl intUpdate ⟨max (numDigits a) (numDigits v.natAbs), _⟩).maxd = _
    rw [← numDigits_max a v.natAbs]
    exact ih (max a v.natAbs) _

theorem intRun_neg_eq (V : List Int) : ∀ b : Bool, ∀ m : Nat,
    (V.foldl intUpdate ⟨m, b⟩).neg = (b || V.any (fun v => decide (v < 0))) := by
  induction V with
  | nil => intro b m; simp
  | cons v rest ih =>
    intro b m
    show (rest.foldl intUpdate ⟨_, b || decide (v < 0)⟩).neg = _
    rw [ih]
    simp [Bool.or_assoc]

/-! ### DecimalRenderer

Modelled from the spec: DecimalRenderer of the missing `query_render.py`
(spec 4.5), constrained by `query_render_test.py` (`TestDecimalRenderer`)
and `TestQueryRender.test_render_Decimal`: values keep their own fractional
digits, aligned on the decimal point; the fractional field is truncated to
the column scale when longer and padded with trailing blanks when shorter
(the render-text test output `123.1 / 234.12 / ...` shows blank padding, not
zero padding); scale-0 values render with an all-blank fractional field and
no decimal point.  A Python `Decimal` with explicit scale is embedded as a
mantissa and a scale: the value is `man / 10 ^ scale`. -/

structure Dec where
  man : Int
  scale : Nat
deriving DecidableEq

/-- The integer part `abs(value)` as a natural number. -/
def ipart (d : Dec) : Nat := d.man.natAbs / 10 ^ d.scale

/-- The fractional digits of `abs(value)` read as a natural number. -/
def fracNat (d : Dec) : Nat := d.man.natAbs % 10 ^ d.scale

/-- The sign prefix of the rendered number. -/
def decSign (d : Dec) : String := if d.man < 0 then "-" else ""

/-- The value's own fractional digit string, zero padded on the left to the
value's scale (the digits exactly as written after the point). -/
def fracDigits (d : Dec) : String := padZeros (natRepr (fracNat d)) d.scale

structure DecState where
  maxIntDigits : Nat
  hasNeg : Bool
  maxScale : Nat
  numValues : Nat
deriving DecidableEq

def decInit : DecState := ⟨0, false, 0, 0⟩

/-- Modelled from the spec: `DecimalRenderer.update(number, key)` of the
missing `query_render.py` — observe integer digit count, sign, the value's
scale and, for currency-keyed columns (Amount and friends), the render
context's precision `p` for the currency (spec section 3, precision map). -/
def decUpdateKey (s : DecState) (d : Dec) (p : Nat) : DecState :=
  ⟨max s.maxIntDigits (numDigits (ipart d)), s.hasNeg || decide (d.man < 0),
    max (max s.maxScale d.scale) p, s.numValues + 1⟩

/-- Modelled from the spec: `DecimalRenderer.update` for a plain decimal
column (no currency key); `None` observations leave the state unchanged. -/
def decUpdate (s : DecState) : Option Dec → DecState
  | none => s
  | some d => decUpdateKey s d 0

/-- Modelled from the spec: the observation pass of DecimalRenderer. -/
def decRun (V : List (Option Dec)) : DecState := V.foldl decUpdate decInit

/-- Width of the integer field (sign slot plus integer digit slots). -/
def decIntW (s : DecState) : Nat := (if s.hasNeg then 1 else 0) + s.maxIntDigits

/-- Width of the fractional field (decimal point plus scale digits). -/
def decFracW (s : DecState) : Nat := if s.maxScale = 0 then 0 else s.maxScale + 1

/-- Modelled from the spec: `DecimalRenderer.width()` — zero for a virgin
column, otherwise sign + integer digits + point + fractional digits. -/
def decWidth (s : DecState) : Nat :=
  if s.numValues = 0 then 0 else decIntW s + decFracW s

/-- The fractional field of a formatted value: blank for scale-0 values,
otherwise the point and the value's digits truncated to the column scale and
blank padded to it. -/
def decFracStr (s : DecState) (d : Dec) : String :=
  if s.maxScale = 0 then ""
  else if d.scale = 0 then spacesStr (s.maxScale + 1)
  else "." ++ strTake (fracDigits d) s.maxScale ++ spacesStr (s.maxScale - d.scale)

/-- Modelled from the spec: `DecimalRenderer.format(value)` — `None` renders
as the empty string on a virgin column and as a full-width blank otherwise;
a number renders sign and integer part right-justified in the integer field
followed by the fractional field. -/
def decFormat (s : DecState) : Option Dec → String
  | none => if s.numValues = 0 then "" else spacesStr (decWidth s)
  | some d => rjust (decSign d ++ natRepr (ipart d)) (decIntW s) ++ decFracStr s d

theorem fracNat_lt (d : Dec) : fracNat d < 10 ^ d.scale :=
  Nat.mod_lt _ (Nat.pos_pow_of_pos _ (by omega))

theorem length_fracDigits (d : Dec) (h : 1 ≤ d.scale) :
    (fracDigits d).length = d.scale := by
  rw [fracDigits, length_padZeros, length_natRepr]
  have := (numDigits_le_iff (fracNat d) d.scale h).mpr (fracNat_lt d)
  omega

theorem length_decFracStr (s : DecState) (d : Dec) :
    (decFracStr s d).length = decFracW s := by
  rw [decFracStr, decFracW]
  by_cases h0 : s.maxScale = 0
  · simp [h0]
  · simp only [h0, if_false]
    by_cases hd : d.scale = 0
    · simp [hd, length_spacesStr]
    · rw [if_neg hd, length_append, length_append, length_strTake,
        length_fracDigits d (by omega), length_spacesStr]
      have hdot : ("." : String).length = 1 := rfl
      omega

theorem length_sign_ipart (d : Dec) :
    (decSign d ++ natRepr (ipart d)).length =
      (if d.man < 0 then 1 else 0) + numDigits (ipart d) := by
  rw [length_append, length_natRepr, decSign]
  split <;> rfl

theorem decFormat_length_some (s : DecState) (d : Dec)
    (h1 : numDigits (ipart d) ≤ s.maxIntDigits)
    (h2 : d.man < 0 → s.hasNeg = true)
    (h3 : 1 ≤ s.numValues) :
    (decFormat s (some d)).length = decWidth s := by
  have hw : decWidth s = decIntW s + decFracW s := by
    rw [decWidth, if_neg (show ¬s.numValues = 0 by omega)]
  show (rjust (decSign d ++ natRepr (ipart d)) (decIntW s) ++ decFracStr s d).length = _
  rw [length_append, length_rjust, length_sign_ipart, length_decFracStr, hw]
  have hle : (if d.man < 0 then 1 else 0) + numDigits (ipart d) ≤ decIntW s := by
    rw [decIntW]
    by_cases hneg : d.man < 0
    · rw [if_pos hneg, h2 hneg]
      simp
      omega
    · rw [if_neg hneg]
      split <;> omega
  omega

/-- The facts the observation pass records about an observed value. -/
def decSeen (d : Dec) (s : DecState) : Prop :=
  numDigits (ipart d) ≤ s.maxIntDigits ∧ (d.man < 0 → s.hasNeg = true) ∧
    d.scale ≤ s.maxScale ∧ 1 ≤ s.numValues

theorem decSeen_updateKey_self (s : DecState) (d : Dec) (p : Nat) :
    decSeen d (decUpdateKey s d p) := by
  refine ⟨Nat.le_max_right _ _, ?_, ?_, ?_⟩
  · intro h
    simp [decUpdateKey, h]
  · exact le_trans (Nat.le_max_right _ _) (Nat.le_max_left _ _)
  · show 1 ≤ s.numValues + 1
    omega

theorem decSeen_updateKey_mono (d : Dec) (s : DecState) (e : Dec) (p : Nat)
    (h : decSeen d s) : decSeen d (decUpdateKey s e p) := by
  obtain ⟨ha, hb, hc, hd2⟩ := h
  refine ⟨le_trans ha (Nat.le_max_left _ _), ?_, ?_, ?_⟩
  · intro hneg
    simp [decUpdateKey, hb hneg]
  · exact le_trans hc (le_trans (Nat.le_max_left _ _) (Nat.le_max_left _ _))
  · show 1 ≤ s.numValues + 1
    omega

theorem decSeen_update_mono (d : Dec) (s : DecState) (v : Option Dec)
    (h : decSeen d s) : decSeen d (decUpdate s v) := by
  cases v with
  | none => exact h
  | some e => exact decSeen_updateKey_mono d s e 0 h

theorem decSeen_run_mem (V : List (Option Dec)) (d : Dec)
    (hv : some d ∈ V) : decSeen d (decRun V) := by
  refine foldlMem decUpdate (decSeen d) ?_ (some d) ?_ V decInit hv
  · intro s v h
    exact decSeen_update_mono d s v h
  · intro s
    exact decSeen_updateKey_self s d 0

theorem decFormat_length_mem (V : List (Option Dec)) (v : Option Dec)
    (hv : v ∈ V) :
    (decFormat (decRun V) v).length = decWidth (decRun V) := by
  cases v with
  | none =>
    by_cases h : (decRun V).numValues = 0
    · simp [decFormat, h, decWidth]
    · simp [decFormat, h, length_spacesStr]
  | some d =>
    obtain ⟨h1, h2, _, h3⟩ := decSeen_run_mem V d hv
    exact decFormat_length_some (decRun V) d h1 h2 h3

/-- The numValues counter counts exactly the non-null observations. -/
theorem decRun_numValues_zero (V : List (Option Dec))
    (h : ∀ v ∈ V, v = none) : (decRun V).numValues = 0 := by
  have : decRun V = decInit := by
    rw [decRun]
    induction V with
    | nil => rfl
    | cons w rest ih =>
      have hw : w = none := h w (by simp)
      subst hw
      exact ih (by intro v hv; exact h v (by simp [hv]))
  rw [this]
  rfl

theorem decRun_numValues_pos (V : List (Option Dec)) (d : Dec)
    (hv : some d ∈ V) : 1 ≤ (decRun V).numValues :=
  (decSeen_run_mem V d hv).2.2.2

/-- Truncation characterization of the fractional field: the digits shown
after the point are the first `min scale maxScale` fractional digits of the
value, as an arithmetic truncation. -/
theorem decFracStr_arith (s : DecState) (d : Dec) (hms : 1 ≤ s.maxScale)
    (hd : 1 ≤ d.scale) :
    decFracStr s d =
      "." ++ padZeros (natRepr (fracNat d / 10 ^ (d.scale - min d.scale s.maxScale)))
          (min d.scale s.maxScale) ++ spacesStr (s.maxScale - d.scale) := by
  rw [decFracStr, if_neg (by omega), if_neg (by omega)]
  congr 2
  by_cases hle : d.scale ≤ s.maxScale
  · rw [Nat.min_eq_left hle, Nat.sub_self, pow_zero, Nat.div_one]
    rw [strTake_of_le (fracDigits d) s.maxScale (by rw [length_fracDigits d hd]; omega)]
    rfl
  · rw [Nat.min_eq_right (by omega)]
    rw [fracDigits, strTake_padZeros (fracNat d) d.scale s.maxScale hms (by omega)
      (fracNat_lt d)]

/-! ### AmountRenderer, PositionRenderer, InventoryRenderer

Modelled from the spec: the composite renderers of the missing
`query_render.py` (spec 4.6-4.7).  An Amount composes the decimal
sub-renderer (keyed by the render context's per-currency precision) with a
max-length tracker for the currency code; a Position adds an optional
bracketed cost amount, blank padded on rows without a cost when some row has
one; an Inventory folds every position of every observed inventory into one
shared Position sub-state and renders one line per position. -/

/-- Modelled from the spec: RenderContext (spec section 3) — the list
separator and the per-currency precision map (maximum decimal scale observed
anywhere in the result set; currencies not in the map give 0). -/
structure RenderContext where
  listsep : String
  prec : String → Nat

/-- An amount: a decimal number and a currency code. -/
structure Amt where
  num : Dec
  cur : String
deriving DecidableEq

structure AmtState where
  dec : DecState
  curw : Nat
deriving DecidableEq

def amtInit : AmtState := ⟨decInit, 0⟩

/-- Modelled from the spec: `AmountRenderer.update` — feed the number and
the context precision of its currency to the decimal sub-renderer and track
the widest currency code. -/
def amtUpdate (ctx : RenderContext) (s : AmtState) (a : Amt) : AmtState :=
  ⟨decUpdateKey s.dec a.num (ctx.prec a.cur), max s.curw a.cur.length⟩

def amtRun (ctx : RenderContext) (V : List Amt) : AmtState :=
  V.foldl (amtUpdate ctx) amtInit

/-- Modelled from the spec: `AmountRenderer.width()` — number width, one
separating space, currency width. -/
def amtWidth (s : AmtState) : Nat := decWidth s.dec + 1 + s.curw

/-- Modelled from the spec: `AmountRenderer.format` — number right-justified,
one space, currency left-justified. -/
def amtFormat (s : AmtState) (a : Amt) : String :=
  decFormat s.dec (some a.num) ++ " " ++ ljust a.cur s.curw

/-- A position: units plus an optional cost amount. -/
structure Pos where
  units : Amt
  cost : Option Amt
deriving DecidableEq

structure PosState where
  units : AmtState
  cost : AmtState
  ncost : Nat
deriving DecidableEq

def posInit : PosState := ⟨amtInit, amtInit, 0⟩

/-- Modelled from the spec: `PositionRenderer.update` — feed units and, when
present, the cost to the two amount sub-renderers. -/
def posUpdate (ctx : RenderContext) (s : PosState) (p : Pos) : PosState :=
  ⟨amtUpdate ctx s.units p.units,
    match p.cost with
    | none => s.cost
    | some c => amtUpdate ctx s.cost c,
    s.ncost + (match p.cost with | none => 0 | some _ => 1)⟩

def posRun (ctx : RenderContext) (V : List Pos) : PosState :=
  V.foldl (posUpdate ctx) posInit

/-- Modelled from the spec: `PositionRenderer.width()` — units width plus,
when any cost was observed, space, braces and the cost amount width. -/
def posWidth (s : PosState) : Nat :=
  amtWidth s.units + (if s.ncost = 0 then 0 else amtWidth s.cost + 3)

/-- Modelled from the spec: `PositionRenderer.format` — the units amount
followed, when the column observed any cost, by the braced cost amount or by
blanks of the same width when this row has no cost. -/
def posFormat (s : PosState) (p : Pos) : String :=
  amtFormat s.units p.units ++
    (if s.ncost = 0 then ""
      else match p.cost with
      | some c => " " ++ "\x7b" ++ amtFormat s.cost c ++ "\x7d"
      | none => " " ++ spacesStr (amtWidth s.cost + 2))

/-- The result of `InventoryRenderer.format`: a plain string for a
single-position inventory, a list of physical lines otherwise. -/
inductive Rendered where
  | str : String → Rendered
  | lines : List String → Rendered
deriving DecidableEq

def Rendered.isSingle : Rendered → Bool
  | .str _ => true
  | .lines _ => false

/-- Modelled from the spec: `InventoryRenderer.update` — feed every position
of the inventory to the shared position sub-state. -/
def invUpdate (ctx : RenderContext) (s : PosState) (inv : List Pos) : PosState :=
  inv.foldl (posUpdate ctx) s

def invRun (ctx : RenderContext) (V : List (List Pos)) : PosState :=
  V.foldl (invUpdate ctx) posInit

def invWidth (s : PosState) : Nat := posWidth s

/-- Modelled from the spec: `InventoryRenderer.format` — a single-position
inventory renders as the one position's line; a multi-position inventory
renders one line per position, all justified to the shared sub-widths. -/
def invFormat (s : PosState) : List Pos → Rendered
  | [p] => .str (posFormat s p)
  | ps => .lines (ps.map (posFormat s))

/-- The facts the observation pass records about an observed amount. -/
def amtSeen (a : Amt) (s : AmtState) : Prop :=
  decSeen a.num s.dec ∧ a.cur.length ≤ s.curw

theorem amtSeen_update_self (ctx : RenderContext) (s : AmtState) (a : Amt) :
    amtSeen a (amtUpdate ctx s a) :=
  ⟨decSeen_updateKey_self s.dec a.num (ctx.prec a.cur), Nat.le_max_right _ _⟩

theorem amtSeen_update_mono (a : Amt) (ctx : RenderContext) (s : AmtState)
    (b : Amt) (h : amtSeen a s) : amtSeen a (amtUpdate ctx s b) :=
  ⟨decSeen_updateKey_mono a.num s.dec b.num (ctx.prec b.cur) h.1,
    le_trans h.2 (Nat.le_max_left _ _)⟩

theorem amtFormat_length (s : AmtState) (a : Amt) (h : amtSeen a s) :
    (amtFormat s a).length = amtWidth s := by
  obtain ⟨⟨h1, h2, _, h3⟩, hc⟩ := h
  rw [amtFormat, amtWidth, length_append, length_append,
    decFormat_length_some s.dec a.num h1 h2 h3, length_ljust]
  have hsp : (" " : String).length = 1 := rfl
  omega

/-- The facts the observation pass records about an observed position. -/
def posSeen (p : Pos) (s : PosState) : Prop :=
  amtSeen p.units s.units ∧
    ∀ c, p.cost = some c → amtSeen c s.cost ∧ 1 ≤ s.ncost

theorem posSeen_update_self (ctx : RenderContext) (s : PosState) (p : Pos) :
    posSeen p (posUpdate ctx s p) := by
  obtain ⟨u, oc⟩ := p
  cases oc with
  | none =>
    refine ⟨amtSeen_update_self ctx s.units u, ?_⟩
    intro c hc
    simp at hc
  | some c0 =>
    refine ⟨amtSeen_update_self ctx s.units u, ?_⟩
    intro c hc
    obtain rfl : c0 = c := Option.some.inj hc
    refine ⟨amtSeen_update_self ctx s.cost c0, ?_⟩
    show 1 ≤ s.ncost + 1
    omega

theorem posSeen_update_mono (p : Pos) (ctx : RenderContext) (s : PosState)
    (q : Pos) (h : posSeen p s) : posSeen p (posUpdate ctx s q) := by
  obtain ⟨hu, hc⟩ := h
  obtain ⟨uq, ocq⟩ := q
  refine ⟨amtSeen_update_mono p.units ctx s.units uq hu, ?_⟩
  intro c hcc
  obtain ⟨h1, h2⟩ := hc c hcc
  cases ocq with
  | none => exact ⟨h1, by show 1 ≤ s.ncost + 0; omega⟩
  | some cq =>
    exact ⟨amtSeen_update_mono c ctx s.cost cq h1, by show 1 ≤ s.ncost + 1; omega⟩

theorem posFormat_length (s : PosState) (p : Pos) (h : posSeen p s) :
    (posFormat s p).length = posWidth s := by
  obtain ⟨hu, hc⟩ := h
  obtain ⟨u, oc⟩ := p
  rw [posFormat, posWidth]
  by_cases hn : s.ncost = 0
  · rw [if_pos hn, if_pos hn, append_empty]
    rw [amtFormat_length s.units u hu]
    omega
  · rw [if_neg hn, if_neg hn]
    cases oc with
    | none =>
      rw [length_append, amtFormat_length s.units u hu, length_append,
        length_spacesStr]
      have hsp : (" " : String).length = 1 := rfl
      omega
    | some c =>
      obtain ⟨hcs, _⟩ := hc c rfl
      rw [length_append, amtFormat_length s.units u hu, length_append,
        length_append, length_append, amtFormat_length s.cost c hcs]
      have hsp : (" " : String).length = 1 := rfl
      have hob : ("\x7b" : String).length = 1 := rfl
      have hcb : ("\x7d" : String).length = 1 := rfl
      omega

theorem posSeen_run_mem (ctx : RenderContext) (V : List Pos) (p : Pos)
    (hp : p ∈ V) : posSeen p (posRun ctx V) := by
  refine foldlMem (posUpdate ctx) (posSeen p) ?_ p ?_ V posInit hp
  · intro s q h
    exact posSeen_update_mono p ctx s q h
  · intro s
    exact posSeen_update_self ctx s p

theorem posSeen_invUpdate_mem (ctx : RenderContext) (inv : List Pos) (p : Pos)
    (hp : p ∈ inv) (s : PosState) : posSeen p (invUpdate ctx s inv) := by
  refine foldlMem (posUpdate ctx) (posSeen p) ?_ p ?_ inv s hp
  · intro t q h
    exact posSeen_update_mono p ctx t q h
  · intro t
    exact posSeen_update_self ctx t p

theorem posSeen_invUpdate_mono (p : Pos) (ctx : RenderContext) (s : PosState)
    (inv : List Pos) (h : posSeen p s) : posSeen p (invUpdate ctx s inv) := by
  refine foldlPres (posUpdate ctx) (posSeen p) ?_ inv s h
  intro t q hq
  exact posSeen_update_mono p ctx t q hq

theorem posSeen_invRun (ctx : RenderContext) (V : List (List Pos))
    (inv : List Pos) (p : Pos) (hinv : inv ∈ V) (hp : p ∈ inv) :
    posSeen p (invRun ctx V) := by
  refine foldlMem (invUpdate ctx) (posSeen p) ?_ inv ?_ V posInit hinv
  · intro s i h
    exact posSeen_invUpdate_mono p ctx s i h
  · intro s
    exact posSeen_invUpdate_mem ctx inv p hp s

theorem amtSeen_run_mem (ctx : RenderContext) (V : List Amt) (a : Amt)
    (ha : a ∈ V) : amtSeen a (amtRun ctx V) := by
  refine foldlMem (amtUpdate ctx) (amtSeen a) ?_ a ?_ V amtInit ha
  · intro s b h
    exact amtSeen_update_mono a ctx s b h
  · intro s
    exact amtSeen_update_self ctx s a

/-! ### The CSV data-source adapter (`beanquery/sources/csv.py`)

`_parse_bool` and `Table.__iter__` are in the tree and embedded directly.
The underlying seekable text stream wrapped by `csv.reader` is embedded as
the list of records the reader would yield from position 0, together with a
current position; `seek(0)` resets the position. -/

/-- Python `value.strip()`: drop leading and trailing whitespace. -/
def pyStrip (s : String) : String :=
  ⟨((s.data.dropWhile Char.isWhitespace).reverse.dropWhile Char.isWhitespace).reverse⟩

/-- Python `value.lower()`. -/
def pyLower (s : String) : String := ⟨s.data.map Char.toLower⟩

/-- `_parse_bool` from `beanquery/sources/csv.py` lines 23-29: strip and
lowercase, accept `1`/`true` as True and `0`/`false` as False, raise
`ValueError(value)` otherwise (the stripped-lowered local `x` is inlined). -/
def parseBool (value : String) : Except String Bool :=
  if pyLower (pyStrip value) = "1" ∨ pyLower (pyStrip value) = "true" then
    Except.ok true
  else if pyLower (pyStrip value) = "0" ∨ pyLower (pyStrip value) = "false" then
    Except.ok false
  else Except.error value

/-- The seekable data stream underlying a csv `Table`: the records the csv
reader yields from position 0, and the current read position. -/
structure DataStream where
  rows : List (List String)
  pos : Nat
deriving DecidableEq

/-- `Table.__iter__` from `beanquery/sources/csv.py` lines 63-68: seek the
data stream back to 0, then skip one record with `next(it)` when the table
has a header — which raises `StopIteration` out of `__iter__` when the
stream is empty.  The result is the stream after a full iteration together
with the records yielded. -/
def tableIter (header : Bool) (s : DataStream) :
    Except Unit (DataStream × List (List String)) :=
  if header then
    match s.rows with
    | [] => Except.error ()
    | _ :: rest => Except.ok (⟨s.rows, s.rows.length⟩, rest)
  else Except.ok (⟨s.rows, s.rows.length⟩, s.rows)

/-! ### The text output writer (`beanquery/render/text.py`)

`render` guards on an empty row set before delegating to
`query_render.render_text`, which is not in the tree; it is therefore taken
as an arbitrary function argument, so the theorems about `render` hold for
every possible table renderer.  The output sink is embedded as the list of
strings written to it. -/

/-- `render` from `beanquery/render/text.py`: return (leaving the sink
untouched) when the row set is empty, delegate to the table renderer
otherwise. -/
def render {δ ρ γ : Type} (renderTextF : δ → List ρ → γ → List String → List String)
    (desc : δ) (rows : List ρ) (dcontext : γ) (file : List String) : List String :=
  if rows.isEmpty then file else renderTextF desc rows dcontext file

/-! ### Concrete test fixtures

The display-context precisions and the inventory of
`query_render_test.py` (`ColumnRendererBase.setUp`,
`TestInventoryRenderer.test_various`), used by witnesses and
counterexamples. -/

/-- The per-currency precisions accumulated in `ColumnRendererBase.setUp`. -/
def testPrec : String → Nat := fun c =>
  if c = "USD" then 4 else if c = "CAD" then 2 else if c = "HOOL" then 3
  else if c = "CA" then 0 else if c = "AAPL" then 2 else 0

def testCtx : RenderContext := ⟨", ", testPrec⟩

/-- The inventory `5 HOOL (500.23 USD), 12.3456 CAAD` of
`TestInventoryRenderer.test_various`. -/
def testInv : List Pos :=
  [⟨⟨⟨5, 0⟩, "HOOL"⟩, some ⟨⟨50023, 2⟩, "USD"⟩⟩,
    ⟨⟨⟨123456, 4⟩, "CAAD"⟩, none⟩]

/-! ### Claim theorems -/

theorem boolFold_maxlen (V : List Bool) : ∀ a : Nat, V ≠ [] →
    (V.foldl (mlUpdate boolDisp) ⟨a⟩).maxlen =
      max a (if false ∈ V then 5 else 4) := by
  induction V with
  | nil => intro a h; cases h rfl
  | cons b rest ih =>
    intro a h
    show (rest.foldl (mlUpdate boolDisp) ⟨max a (boolDisp b).length⟩).maxlen = _
    by_cases hr : rest = []
    · subst hr
      show max a (boolDisp b).length = _
      cases b with
      | true =>
        have h4 : (boolDisp true).length = 4 := rfl
        rw [h4]
        simp
      | false =>
        have h5 : (boolDisp false).length = 5 := rfl
        rw [h5]
        simp
    · rw [ih (max a (boolDisp b).length) hr]
      cases b with
      | true =>
        have h4 : (boolDisp true).length = 4 := rfl
        rw [h4]
        by_cases hf : false ∈ rest
        · have hm2 : false ∈ true :: rest := by simp [hf]
          rw [if_pos hf, if_pos hm2]; omega
        · have hm2 : ¬false ∈ true :: rest := by simp [hf]
          rw [if_neg hf, if_neg hm2]; omega
      | false =>
        have h5 : (boolDisp false).length = 5 := rfl
        rw [h5]
        have hmem : false ∈ false :: rest := by simp
        rw [if_pos hmem]
        by_cases hf : false ∈ rest
        · rw [if_pos hf]; omega
        · rw [if_neg hf]; omega

/-- C2 counterexample: a BoolRenderer that observed only True values has
width 4, not 5, and formats True as the unpadded `TRUE`, exactly as
`TestBoolRenderer.test_bool` demands of `render([True, True])`. -/
theorem c2_counterexample_width_four :
    mlWidth (mlRun boolDisp [true, true]) = 4 ∧
    mlFormat boolDisp (mlRun boolDisp [true, true]) true = "TRUE" ∧
    ¬mlWidth (mlRun boolDisp [true, true]) = 5 := by
  decide

/-- C2 (amended): for every nonempty sequence of observed booleans, the
BoolRenderer width is the length of the longest observed literal — 5 when
any False was observed, 4 when only True was observed; `format True` is
`TRUE` padded to that width and `format False` is `FALSE` in both cases. -/
theorem c2_bool_width_amended (V : List Bool) (h : V ≠ []) :
    mlWidth (mlRun boolDisp V) = (if false ∈ V then 5 else 4) ∧
    mlFormat boolDisp (mlRun boolDisp V) true =
      (if false ∈ V then "TRUE " else "TRUE") ∧
    mlFormat boolDisp (mlRun boolDisp V) false = "FALSE" := by
  have hm : (mlRun boolDisp V).maxlen = (if false ∈ V then 5 else 4) := by
    have := boolFold_maxlen V 0 h
    rw [mlRun, this]
    omega
  refine ⟨hm, ?_, ?_⟩
  · show ljust (boolDisp true) (mlRun boolDisp V).maxlen = _
    rw [hm]
    by_cases hf : false ∈ V
    · rw [if_pos hf, if_pos hf]; decide
    · rw [if_neg hf, if_neg hf]; decide
  · show ljust (boolDisp false) (mlRun boolDisp V).maxlen = _
    rw [hm]
    by_cases hf : false ∈ V
    · rw [if_pos hf]; decide
    · rw [if_neg hf]; decide

/-- C2 witness: the amended claim at the observations `[False, True]` of
`TestBoolRenderer.test_bool`. -/
theorem c2_bool_width_amended_witness :
    mlWidth (mlRun boolDisp [false, true]) = 5 ∧
    mlFormat boolDisp (mlRun boolDisp [false, true]) true = "TRUE " ∧
    mlFormat boolDisp (mlRun boolDisp [false, true]) false = "FALSE" := by
  have h := c2_bool_width_amended [false, true] (by simp)
  exact ⟨h.1.trans (by decide), h.2.1.trans (by decide), h.2.2⟩

/-- C3: a virgin decimal column (zero non-null observations) has width 0 and
formats None as the empty string; a column with at least one non-null
observation formats None as an all-space string of the full column width. -/
theorem c3_decimal_none (V : List (Option Dec)) :
    ((∀ v ∈ V, v = none) →
      decWidth (decRun V) = 0 ∧ decFormat (decRun V) none = "") ∧
    ((∃ d : Dec, some d ∈ V) →
      decFormat (decRun V) none = spacesStr (decWidth (decRun V)) ∧
      (decFormat (decRun V) none).length = decWidth (decRun V) ∧
      ∀ c ∈ (decFormat (decRun V) none).data, c = ' ') := by
  constructor
  · intro hall
    have h0 := decRun_numValues_zero V hall
    constructor
    · rw [decWidth, if_pos h0]
    · show (if (decRun V).numValues = 0 then "" else _) = ""
      rw [if_pos h0]
  · rintro ⟨d, hd⟩
    have hpos := decRun_numValues_pos V d hd
    have hne : ¬(decRun V).numValues = 0 := by omega
    have he : decFormat (decRun V) none = spacesStr (decWidth (decRun V)) := by
      show (if (decRun V).numValues = 0 then "" else _) = _
      rw [if_neg hne]
    refine ⟨he, ?_, ?_⟩
    · rw [he, length_spacesStr]
    · intro c hc
      rw [he] at hc
      exact List.eq_of_mem_replicate hc

/-- C3 witness: the virgin case at `[None]` and the populated case at the
observations `[None, 0.1234, None]` of `TestDecimalRenderer.test_nones`. -/
theorem c3_decimal_none_witness :
    decWidth (decRun [none]) = 0 ∧ decFormat (decRun [none]) none = "" ∧
    decFormat (decRun [none, some ⟨1234, 4⟩, none]) none =
      spacesStr (decWidth (decRun [none, some ⟨1234, 4⟩, none])) := by
  have h1 := (c3_decimal_none [none]).1 (by simp)
  have h2 := (c3_decimal_none [none, some ⟨1234, 4⟩, none]).2 ⟨⟨1234, 4⟩, by simp⟩
  exact ⟨h1.1, h1.2, h2.1⟩

/-- C5: for a nonempty observed integer column the width is the digit count
of the value of maximal absolute value, plus one for the sign when any
negative was observed; `format` right-justifies with leading spaces, the
result has exactly the column width, and a negative value carries its sign
inside the field. -/
theorem c5_integer_width (V : List Int) (h : V ≠ []) :
    intWidth (intRun V) =
      numDigits (maxAbs V) +
        (if V.any (fun v => decide (v < 0)) then 1 else 0) ∧
    ∀ v ∈ V,
      intFormat (intRun V) v =
        spacesStr (intWidth (intRun V) - (intRepr v).length) ++ intRepr v ∧
      (intFormat (intRun V) v).length = intWidth (intRun V) ∧
      (v < 0 → intRepr v = "-" ++ natRepr v.natAbs) := by
  constructor
  · cases V with
    | nil => cases h rfl
    | cons v rest =>
      have hmaxd : (intRun (v :: rest)).maxd = numDigits (maxAbs (v :: rest)) := by
        show (rest.foldl intUpdate ⟨max 0 (numDigits v.natAbs), _⟩).maxd = _
        rw [Nat.zero_max]
        rw [intRun_maxd_eq rest v.natAbs]
        show _ = numDigits (rest.foldl (fun a w => max a w.natAbs) (max 0 v.natAbs))
        rw [Nat.zero_max]
      have hneg : (intRun (v :: rest)).neg =
          (v :: rest).any (fun w => decide (w < 0)) := by
        show ((v :: rest).foldl intUpdate ⟨0, false⟩).neg = _
        rw [show ((v :: rest).foldl intUpdate ⟨0, false⟩) =
          (rest.foldl intUpdate ⟨max 0 (numDigits v.natAbs), false || decide (v < 0)⟩) from rfl]
        rw [intRun_neg_eq rest (false || decide (v < 0)) (max 0 (numDigits v.natAbs))]
        simp [Bool.or_assoc]
      rw [intWidth, hmaxd, hneg]
      have hp := numDigits_pos (maxAbs (v :: rest))
      omega
  · intro v hv
    refine ⟨rfl, intFormat_length_mem V v hv, ?_⟩
    intro hneg
    rw [intRepr, if_pos hneg]

/-- C5 witness: the amended-free claim at the observations `[1, -222, 33]`
of `TestIntegerRenderer.test_integers_negative`. -/
theorem c5_integer_width_witness :
    intWidth (intRun [1, -222, 33]) = 4 ∧
    intFormat (intRun [1, -222, 33]) (-222) = "-222" ∧
    (intFormat (intRun [1, -222, 33]) (-222)).length = intWidth (intRun [1, -222, 33]) := by
  have h := c5_integer_width [1, -222, 33] (by simp)
  have h2 := h.2 (-222) (by simp)
  exact ⟨h.1.trans (by decide), h2.1.trans (by decide), h2.2.1⟩

/-- C6: formatting a value whose digits exceed the computed width does not
truncate — the full correctly formatted number is returned, its length
exceeding the width. -/
theorem c6_integer_overflow (V : List Int) (v : Int)
    (h : intWidth (intRun V) < (intRepr v).length) :
    intFormat (intRun V) v = intRepr v ∧
    intWidth (intRun V) < (intFormat (intRun V) v).length := by
  constructor
  · exact rjust_of_lt _ _ h
  · rw [intFormat, length_rjust]
    omega

/-- C6 witness: the overflow of `TestIntegerRenderer.test_overflow` — the
renderer prepared on `[1, 100, 1000]` (width 4) formats 3456789 as the full
seven-digit string. -/
theorem c6_integer_overflow_witness :
    intFormat (intRun [1, 100, 1000]) 3456789 = "3456789" ∧
    intWidth (intRun [1, 100, 1000]) <
      (intFormat (intRun [1, 100, 1000]) 3456789).length := by
  have h := c6_integer_overflow [1, 100, 1000] 3456789 (by decide)
  exact ⟨h.1.trans (by decide), h.2⟩

/-- C8: with an empty row set the text render entry point leaves the sink
unchanged and never invokes the table renderer — the result is the same for
every possible table renderer. -/
theorem c8_render_empty (δ ρ γ : Type)
    (f g : δ → List ρ → γ → List String → List String)
    (desc : δ) (dcontext : γ) (file : List String) :
    render f desc ([] : List ρ) dcontext file = file ∧
    render f desc ([] : List ρ) dcontext file =
      render g desc ([] : List ρ) dcontext file := by
  constructor <;> rfl

/-- C10 counterexample: on a table with `header` set over an empty data
stream, `Table.__iter__` raises `StopIteration` instead of returning an
iterator, so no leading row is skipped and no row sequence is produced. -/
theorem c10_counterexample_empty_header :
    tableIter true ⟨[], 3⟩ = Except.error () := by
  rfl

/-- C10 (amended): `Table.__iter__` always seeks the stream back to
position 0 (the outcome is independent of the current position), yields all
records when `header` is unset, skips exactly the one leading record when
`header` is set and the stream is nonempty, and raises StopIteration when
`header` is set and the stream is empty; consequently two successive full
iterations behave identically. -/
theorem c10_table_iter_amended (rows : List (List String)) (pos pos2 : Nat)
    (header : Bool) :
    (header = false →
      tableIter false ⟨rows, pos⟩ = Except.ok (⟨rows, rows.length⟩, rows)) ∧
    (∀ r rest, rows = r :: rest →
      tableIter true ⟨rows, pos⟩ = Except.ok (⟨rows, rows.length⟩, rest)) ∧
    (rows = [] → tableIter true ⟨rows, pos⟩ = Except.error ()) ∧
    tableIter header ⟨rows, pos⟩ = tableIter header ⟨rows, pos2⟩ := by
  refine ⟨?_, ?_, ?_, ?_⟩
  · intro _
    rfl
  · intro r rest hr
    subst hr
    rfl
  · intro hr
    subst hr
    rfl
  · rfl

/-- C10 witness: the amended claim on a two-record stream read from a stale
position, with and without a header row. -/
theorem c10_table_iter_amended_witness :
    tableIter true ⟨[["a"], ["b"]], 5⟩ =
      Except.ok (⟨[["a"], ["b"]], 2⟩, [["b"]]) ∧
    tableIter false ⟨[["a"], ["b"]], 5⟩ =
      Except.ok (⟨[["a"], ["b"]], 2⟩, [["a"], ["b"]]) := by
  have h := c10_table_iter_amended [["a"], ["b"]] 5 0 true
  have h2 := c10_table_iter_amended [["a"], ["b"]] 5 0 false
  exact ⟨(h.2.1 ["a"] [["b"]] rfl).trans (by rfl), (h2.1 rfl).trans (by rfl)⟩

/-- C4 counterexample: with the observations of
`TestDecimalRenderer.test_fractional` (scale 4) the scale-0 value 1 renders
as `1` followed by blanks — not as `1.0000` with trailing zeros; and with
observations of scales 4 and 3 the value 20.002 keeps its own three
fractional digits blank padded — not zero padded to `20.0020`. -/
theorem c4_counterexample_no_zero_padding :
    decFormat (decRun [some ⟨123, 2⟩, some ⟨12345, 4⟩, some ⟨2345, 3⟩])
      (some ⟨1, 0⟩) = "1     " ∧
    ¬decFormat (decRun [some ⟨123, 2⟩, some ⟨12345, 4⟩, some ⟨2345, 3⟩])
      (some ⟨1, 0⟩) = "1.0000" ∧
    decFormat (decRun [some ⟨12345, 4⟩, some ⟨20002, 3⟩])
      (some ⟨20002, 3⟩) = "20.002 " ∧
    ¬decFormat (decRun [some ⟨12345, 4⟩, some ⟨20002, 3⟩])
      (some ⟨20002, 3⟩) = "20.0020" := by
  refine ⟨by decide, by decide, by decide, by decide⟩

/-- C4 (amended): on a column with at least one non-null observation,
`format(v)` aligns on the decimal point: the sign and integer part are
right-justified in the integer field; a value of scale 0 has no decimal
point and an all-blank fractional field; a value of positive scale shows its
own fractional digits — arithmetically truncated to the column scale when
longer — followed by trailing blanks (not zeros) up to the column scale; a
positive-scale value in a scale-0 column shows no fractional field. -/
theorem c4_decimal_format_amended (V : List (Option Dec)) (v : Dec)
    (_hobs : ∃ d : Dec, some d ∈ V) :
    (v.scale = 0 → decFormat (decRun V) (some v) =
      rjust (decSign v ++ natRepr (ipart v)) (decIntW (decRun V)) ++
        (if (decRun V).maxScale = 0 then ""
          else spacesStr ((decRun V).maxScale + 1))) ∧
    (1 ≤ v.scale → 1 ≤ (decRun V).maxScale → decFormat (decRun V) (some v) =
      rjust (decSign v ++ natRepr (ipart v)) (decIntW (decRun V)) ++
        ("." ++
          padZeros
            (natRepr (fracNat v / 10 ^ (v.scale - min v.scale (decRun V).maxScale)))
            (min v.scale (decRun V).maxScale) ++
          spacesStr ((decRun V).maxScale - v.scale))) ∧
    (1 ≤ v.scale → (decRun V).maxScale = 0 → decFormat (decRun V) (some v) =
      rjust (decSign v ++ natRepr (ipart v)) (decIntW (decRun V))) := by
  refine ⟨?_, ?_, ?_⟩
  · intro h0
    show rjust _ _ ++ decFracStr (decRun V) v = _
    congr 1
    rw [decFracStr]
    by_cases hms : (decRun V).maxScale = 0
    · rw [if_pos hms, if_pos hms]
    · rw [if_neg hms, if_pos h0, if_neg hms]
  · intro h1 hms
    show rjust _ _ ++ decFracStr (decRun V) v = _
    congr 1
    exact decFracStr_arith (decRun V) v hms h1
  · intro h1 hms
    show rjust _ _ ++ decFracStr (decRun V) v = _
    rw [decFracStr, if_pos hms, append_empty]

/-- C4 witness: the amended claim evaluated at the truncation case
`format(2.34567890)` and the scale-0 case `format(1)` of
`TestDecimalRenderer`. -/
theorem c4_decimal_format_amended_witness :
    decFormat (decRun [some ⟨12345, 4⟩]) (some ⟨234567890, 8⟩) = "2.3456" ∧
    decFormat (decRun [some ⟨12345, 4⟩]) (some ⟨1, 0⟩) = "1     " := by
  have h1 := c4_decimal_format_amended [some ⟨12345, 4⟩] ⟨234567890, 8⟩
    ⟨⟨12345, 4⟩, by simp⟩
  have h2 := c4_decimal_format_amended [some ⟨12345, 4⟩] ⟨1, 0⟩
    ⟨⟨12345, 4⟩, by simp⟩
  constructor
  · exact (h1.2.1 (by decide) (by decide)).trans (by decide)
  · exact (h2.1 rfl).trans (by decide)

/-- C7: the CSV adapter's boolean parser accepts exactly the stripped,
lowercased literals 1/true as True and 0/false as False, and fails with a
ValueError carrying the original string on everything else. -/
theorem c7_parse_bool (s : String) :
    (parseBool s = Except.ok true ↔
      (pyLower (pyStrip s) = "1" ∨ pyLower (pyStrip s) = "true")) ∧
    (parseBool s = Except.ok false ↔
      (pyLower (pyStrip s) = "0" ∨ pyLower (pyStrip s) = "false")) ∧
    (parseBool s = Except.error s ↔
      ¬(pyLower (pyStrip s) = "1" ∨ pyLower (pyStrip s) = "true" ∨
        pyLower (pyStrip s) = "0" ∨ pyLower (pyStrip s) = "false")) := by
  by_cases h1 : pyLower (pyStrip s) = "1" ∨ pyLower (pyStrip s) = "true"
  · have he : parseBool s = Except.ok true := by rw [parseBool, if_pos h1]
    have hne : ¬(pyLower (pyStrip s) = "0" ∨ pyLower (pyStrip s) = "false") := by
      rcases h1 with h | h <;> rw [h] <;> decide
    refine ⟨?_, ?_, ?_⟩
    · simp [he, h1]
    · simp [he]
      tauto
    · simp [he]
      tauto
  · by_cases h2 : pyLower (pyStrip s) = "0" ∨ pyLower (pyStrip s) = "false"
    · have he : parseBool s = Except.ok false := by
        rw [parseBool, if_neg h1, if_pos h2]
      refine ⟨?_, ?_, ?_⟩
      · simp [he]
        tauto
      · simp [he, h2]
      · simp [he]
        tauto
    · have he : parseBool s = Except.error s := by
        rw [parseBool, if_neg h1, if_neg h2]
      refine ⟨?_, ?_, ?_⟩
      · simp [he]
        tauto
      · simp [he]
        tauto
      · simp [he]
        tauto

/-- C7 witness: the parser on a padded uppercase True literal, on `0`, and
on a rejected word. -/
theorem c7_parse_bool_witness :
    parseBool " True " = Except.ok true ∧
    parseBool "0" = Except.ok false ∧
    parseBool "yes" = Except.error "yes" := by
  have h1 := (c7_parse_bool " True ").1
  have h2 := (c7_parse_bool "0").2.1
  have h3 := (c7_parse_bool "yes").2.2
  exact ⟨h1.mpr (by decide), h2.mpr (by decide), h3.mpr (by decide)⟩

/-- C9: with the sub-column widths aggregated over every position of every
observed inventory, a multi-position inventory formats as one line per
position, each line of exactly the full column width; a single-position
inventory formats as the one position's line. -/
theorem c9_inventory_lines (ctx : RenderContext) (V : List (List Pos)) :
    (∀ inv ∈ V, 1 < inv.length →
      invFormat (invRun ctx V) inv =
        Rendered.lines (inv.map (posFormat (invRun ctx V))) ∧
      (inv.map (posFormat (invRun ctx V))).length = inv.length ∧
      ∀ p ∈ inv, (posFormat (invRun ctx V) p).length = invWidth (invRun ctx V)) ∧
    (∀ inv ∈ V, ∀ p, inv = [p] →
      invFormat (invRun ctx V) inv = Rendered.str (posFormat (invRun ctx V) p)) := by
  constructor
  · intro inv hinv hlen
    refine ⟨?_, List.length_map _ _, ?_⟩
    · match inv, hlen with
      | a :: b :: rest, _ => rfl
    · intro p hp
      exact posFormat_length (invRun ctx V) p (posSeen_invRun ctx V inv p hinv hp)
  · intro inv hinv p hip
    subst hip
    rfl

/-- C9 witness: the two-lot inventory of
`TestInventoryRenderer.test_various` renders as two aligned lines, and a
single-position inventory renders as the position line. -/
theorem c9_inventory_lines_witness :
    invFormat (invRun testCtx [testInv]) testInv =
      Rendered.lines (testInv.map (posFormat (invRun testCtx [testInv]))) ∧
    (testInv.map (posFormat (invRun testCtx [testInv]))).length = testInv.length ∧
    invFormat (invRun testCtx [[⟨⟨⟨10000, 2⟩, "USD"⟩, none⟩]])
        [⟨⟨⟨10000, 2⟩, "USD"⟩, none⟩] =
      Rendered.str (posFormat (invRun testCtx [[⟨⟨⟨10000, 2⟩, "USD"⟩, none⟩]])
        ⟨⟨⟨10000, 2⟩, "USD"⟩, none⟩) := by
  have h := (c9_inventory_lines testCtx [testInv]).1 testInv (by simp) (by decide)
  have h2 := (c9_inventory_lines testCtx [[⟨⟨⟨10000, 2⟩, "USD"⟩, none⟩]]).2
    [⟨⟨⟨10000, 2⟩, "USD"⟩, none⟩] (by simp) ⟨⟨⟨10000, 2⟩, "USD"⟩, none⟩ rfl
  exact ⟨h.1, h.2.1, h2⟩

/-- C1 counterexample: on the inventory column of
`TestInventoryRenderer.test_various`, `format` of the two-position inventory
returns two physical lines, not a single string of the column width — an
exception the claim does not list. -/
theorem c1_counterexample_inventory_multiline :
    invFormat (invRun testCtx [testInv]) testInv =
      Rendered.lines
        [" 5      HOOL \x7b500.23   USD\x7d", "12.3456 CAAD               "] ∧
    (invFormat (invRun testCtx [testInv]) testInv).isSingle = false := by
  refine ⟨by decide, by decide⟩

/-- C1 (amended): after observing a column, formatting any observed value
yields a string of exactly the column width, for every renderer of the
family — Object (arbitrary display function), Bool, String, Set, Date,
Integer, Decimal (including None on virgin and populated columns), Amount
and Position — with the exception of InventoryRenderer, where an observed
single-position inventory yields one string of the column width and an
observed multi-position inventory yields one line per position, each line of
exactly the column width. -/
theorem c1_format_width_amended :
    (∀ (α : Type) (disp : α → String) (V : List α), ∀ v ∈ V,
      (mlFormat disp (mlRun disp V) v).length = mlWidth (mlRun disp V)) ∧
    (∀ V : List Bool, ∀ v ∈ V,
      (mlFormat boolDisp (mlRun boolDisp V) v).length = mlWidth (mlRun boolDisp V)) ∧
    (∀ V : List (Option String), ∀ v ∈ V,
      (mlFormat strDisp (mlRun strDisp V) v).length = mlWidth (mlRun strDisp V)) ∧
    (∀ (sep : String) (V : List (List String)), ∀ v ∈ V,
      (mlFormat (setDisp sep) (mlRun (setDisp sep) V) v).length =
        mlWidth (mlRun (setDisp sep) V)) ∧
    (∀ V : List DateV, ∀ v ∈ V,
      (mlFormat dateDisp (mlRun dateDisp V) v).length = mlWidth (mlRun dateDisp V)) ∧
    (∀ V : List Int, ∀ v ∈ V,
      (intFormat (intRun V) v).length = intWidth (intRun V)) ∧
    (∀ V : List (Option Dec), ∀ v ∈ V,
      (decFormat (decRun V) v).length = decWidth (decRun V)) ∧
    (∀ (ctx : RenderContext) (V : List Amt), ∀ v ∈ V,
      (amtFormat (amtRun ctx V) v).length = amtWidth (amtRun ctx V)) ∧
    (∀ (ctx : RenderContext) (V : List Pos), ∀ v ∈ V,
      (posFormat (posRun ctx V) v).length = posWidth (posRun ctx V)) ∧
    (∀ (ctx : RenderContext) (V : List (List Pos)), ∀ inv ∈ V,
      (∀ p, inv = [p] →
        invFormat (invRun ctx V) inv = Rendered.str (posFormat (invRun ctx V) p) ∧
        (posFormat (invRun ctx V) p).length = invWidth (invRun ctx V)) ∧
      (1 < inv.length →
        invFormat (invRun ctx V) inv =
          Rendered.lines (inv.map (posFormat (invRun ctx V))) ∧
        ∀ l ∈ inv.map (posFormat (invRun ctx V)),
          l.length = invWidth (invRun ctx V))) := by
  refine ⟨?_, ?_, ?_, ?_, ?_, ?_, ?_, ?_, ?_, ?_⟩
  · intro α disp V v hv
    exact mlFormat_length disp V v hv
  · intro V v hv
    exact mlFormat_length boolDisp V v hv
  · intro V v hv
    exact mlFormat_length strDisp V v hv
  · intro sep V v hv
    exact mlFormat_length (setDisp sep) V v hv
  · intro V v hv
    exact mlFormat_length dateDisp V v hv
  · intro V v hv
    exact intFormat_length_mem V v hv
  · intro V v hv
    exact decFormat_length_mem V v hv
  · intro ctx V v hv
    exact amtFormat_length (amtRun ctx V) v (amtSeen_run_mem ctx V v hv)
  · intro ctx V v hv
    exact posFormat_length (posRun ctx V) v (posSeen_run_mem ctx V v hv)
  · intro ctx V inv hinv
    constructor
    · intro p hip
      subst hip
      refine ⟨rfl, ?_⟩
      exact posFormat_length (invRun ctx V) p
        (posSeen_invRun ctx V [p] p hinv (by simp))
    · intro hlen
      constructor
      · match inv, hlen with
        | a :: b :: rest, _ => rfl
      · intro l hl
        obtain ⟨p, hp, rfl⟩ := List.mem_map.mp hl
        exact posFormat_length (invRun ctx V) p (posSeen_invRun ctx V inv p hinv hp)

/-- C1 witness: the amended claim instantiated on the concrete columns of
`query_render_test.py`: an object column, a bool column, a string column, a
set column, a date column, the integer column `[1, 222, 33]`, the decimal
column `[None, 0.1234]`, the amount column `[5 HOOL]`, a position column and
the two-lot inventory column. -/
theorem c1_format_width_amended_witness :
    (mlFormat natRepr (mlRun natRepr [3, 17]) 17).length =
      mlWidth (mlRun natRepr [3, 17]) ∧
    (mlFormat boolDisp (mlRun boolDisp [true, false]) true).length =
      mlWidth (mlRun boolDisp [true, false]) ∧
    (mlFormat strDisp (mlRun strDisp [some "ccc", none]) none).length =
      mlWidth (mlRun strDisp [some "ccc", none]) ∧
    (mlFormat (setDisp "+") (mlRun (setDisp "+") [["bb", "ccc"]]) ["bb", "ccc"]).length =
      mlWidth (mlRun (setDisp "+") [["bb", "ccc"]]) ∧
    (mlFormat dateDisp (mlRun dateDisp [⟨2014, 10, 3, by omega, by omega, by omega⟩])
        ⟨2014, 10, 3, by omega, by omega, by omega⟩).length =
      mlWidth (mlRun dateDisp [⟨2014, 10, 3, by omega, by omega, by omega⟩]) ∧
    (intFormat (intRun [1, 222, 33]) 222).length = intWidth (intRun [1, 222, 33]) ∧
    (decFormat (decRun [none, some ⟨1234, 4⟩]) none).length =
      decWidth (decRun [none, some ⟨1234, 4⟩]) ∧
    (amtFormat (amtRun testCtx [⟨⟨5, 0⟩, "HOOL"⟩]) ⟨⟨5, 0⟩, "HOOL"⟩).length =
      amtWidth (amtRun testCtx [⟨⟨5, 0⟩, "HOOL"⟩]) ∧
    (posFormat (posRun testCtx testInv) ⟨⟨⟨123456, 4⟩, "CAAD"⟩, none⟩).length =
      posWidth (posRun testCtx testInv) ∧
    ∀ l ∈ testInv.map (posFormat (invRun testCtx [testInv])),
      l.length = invWidth (invRun testCtx [testInv]) := by
  obtain ⟨h1, h2, h3, h4, h5, h6, h7, h8, h9, h10⟩ := c1_format_width_amended
  refine ⟨h1 Nat natRepr [3, 17] 17 (by simp),
    h2 [true, false] true (by simp),
    h3 [some "ccc", none] none (by simp),
    h4 "+" [["bb", "ccc"]] ["bb", "ccc"] (by simp),
    h5 [⟨2014, 10, 3, by omega, by omega, by omega⟩] _ (by simp),
    h6 [1, 222, 33] 222 (by simp),
    h7 [none, some ⟨1234, 4⟩] none (by simp),
    h8 testCtx [⟨⟨5, 0⟩, "HOOL"⟩] ⟨⟨5, 0⟩, "HOOL"⟩ (by simp),
    h9 testCtx testInv ⟨⟨⟨123456, 4⟩, "CAAD"⟩, none⟩ (by simp [testInv]),
    ((h10 testCtx [testInv] testInv (by simp)).2 (by decide)).2⟩

end Beanquery
